import Mathlib

/-!
# go-dynamic-questionnaire: a Lean embedding of the decision engine

This file embeds the core of the `go-dynamic-questionnaire` library
(`questionnaire.go`, `errors.go`) and proves the behavioural properties of
its specification against that embedding.

Modelling decisions:

* Go `map[string]int` (the caller-supplied answers) is modelled as an
  association list `AnswersMap := List (String × Int)`; `len(answers)` is
  the list length and `answers[id]` is `List.lookup`.  Go iterates a map in
  an unspecified order; the list order stands for one such order.
* The third-party expression engine (`expr.Compile` / `expr.Run`) is an
  opaque boolean-predicate evaluator.  It is modelled by a parameter
  `ev : Evaluator` whose result distinguishes a successful boolean, a
  non-boolean value, a compile failure and a runtime failure — exactly the
  four outcomes `shouldShowQuestion` distinguishes in the source.
* Go's `error` results become `Except QError`; the structured
  `validationError` values of `errors.go` become constructors of `QError`
  carrying the same context fields (the `fmt.Errorf` wrapping text is
  presentation and is dropped).
* The dependency-graph validation (`depends_on`, rules 4–6 of the spec's
  §4.1) is exercised by the repository's tests and has its error
  constructors in `errors.go`, but its implementation is not among the
  source files; those definitions are modelled from the spec and are
  marked `Modelled from the spec:` below.
-/

namespace GDQ

/-- Caller-supplied answers: Go `map[string]int`, as an association list
from question identifier to the 1-indexed chosen option. -/
abbrev AnswersMap := List (String × Int)

/-- Source `question` from `questionnaire.go`: one question of the configuration.
`DependsOn` is the `depends_on` list used by the dependency validation;
the field is exercised by the repository's YAML fixtures and tests
(Modelled from the spec: the copy of `questionnaire.go` in `src/` lacks
the field, the spec's Data Model declares it). -/
structure question where
  Id : String
  Text : String
  Answers : List String
  Condition : String
  DependsOn : List String
deriving DecidableEq, Repr

/-- Source `closingRemark` from `questionnaire.go`. -/
structure closingRemark where
  Id : String
  Text : String
  Condition : String
deriving DecidableEq, Repr

/-- Source `questionnaire` from `questionnaire.go`: the parsed configuration. -/
structure questionnaire where
  Questions : List question
  Remarks : List closingRemark
deriving DecidableEq, Repr

/-- Source `Question` from `questionnaire.go`: the external projection of a
question (no condition, no dependencies). -/
structure Question where
  Id : String
  Text : String
  Answers : List String
deriving DecidableEq, Repr

/-- Source `ClosingRemark` from `questionnaire.go`: the external projection of a
closing remark. -/
structure ClosingRemark where
  Id : String
  Text : String
deriving DecidableEq, Repr

/-- Source `Progress` from `questionnaire.go`. -/
structure Progress where
  Current : Nat
  Total : Nat
deriving DecidableEq, Repr

/-- Source `Response` from `questionnaire.go`. -/
structure Response where
  Questions : List Question
  ClosingRemarks : List ClosingRemark
  Completed : Bool
  Progress : Option Progress
deriving DecidableEq, Repr

/-- The structured errors of `errors.go` (`validationError` values and the
evaluation errors produced in `shouldShowQuestion` / `shouldShowClosingRemark`),
keyed by the `Type` constant and carrying the same context fields. -/
inductive QError where
  | emptyQuestionID
  | duplicateQuestionID (questionID : String)
  | emptyAnswers (questionID : String)
  | invalidQuestionID (questionID : String) (answer : Int)
  | invalidAnswerRange (questionID questionText : String) (answer : Int) (optionCount : Nat)
  | invalidDependency (questionID dependencyID : String)
  | circularDependency (cycle : List String)
  | conditionDependencyMismatch (questionID : String) (declared referenced : List String)
  | compileError (msg : String)
  | runError (msg : String)
  | conditionNotBoolean (condition : String)
deriving DecidableEq, Repr

/-- Outcome of running the opaque expression engine on a condition text:
the four cases `shouldShowQuestion` distinguishes (`expr.Compile` failure,
`expr.Run` failure, a non-boolean result, a boolean result). -/
inductive EvalResult where
  | value (b : Bool)
  | nonBoolean
  | compileFailure (msg : String)
  | runFailure (msg : String)
deriving DecidableEq, Repr

/-- The opaque predicate evaluator (`expr-lang`), abstracted as in the
spec's §9: a capability taking the condition text and the answer context. -/
abbrev Evaluator := String → AnswersMap → EvalResult

/-- Equality on `Except` results is decidable when it is on both sides;
used to evaluate concrete runs of the embedded functions. -/
instance {ε α : Type} [DecidableEq ε] [DecidableEq α] : DecidableEq (Except ε α) := by
  intro a b
  cases a <;> cases b
  case error.error e f =>
    exact if h : e = f then .isTrue (by rw [h]) else .isFalse (by simp [h])
  case error.ok e x => exact .isFalse (by simp)
  case ok.error x e => exact .isFalse (by simp)
  case ok.ok x y =>
    exact if h : x = y then .isTrue (by rw [h]) else .isFalse (by simp [h])

/-- Worker of `validateQuestionnaireIntegrity`: the loop over
`q.Questions`, with `seen` standing for the Go map `questionIDs`. -/
def validateIntegrityLoop (seen : List String) : List question → Except QError Unit
  | [] => .ok ()
  | qu :: rest =>
    if qu.Id = "" then .error .emptyQuestionID
    else if seen.contains qu.Id then .error (.duplicateQuestionID qu.Id)
    else if qu.Answers = [] then .error (.emptyAnswers qu.Id)
    else validateIntegrityLoop (qu.Id :: seen) rest

/-- Source `validateQuestionnaireIntegrity` from `questionnaire.go`: the load-time
structural validation (empty ID, duplicate ID, empty answer list), question
by question in definition order. -/
def validateQuestionnaireIntegrity (qs : List question) : Except QError Unit :=
  validateIntegrityLoop [] qs

/-- Source `New` from `questionnaire.go`, restricted to the in-memory definition
(the YAML/file loading is out of scope): structural validation, then the
questionnaire itself. -/
def New (q : questionnaire) : Except QError questionnaire :=
  match validateQuestionnaireIntegrity q.Questions with
  | .error e => .error e
  | .ok () => .ok q

/-- Source `findQuestionByID` from `questionnaire.go`: first question whose `Id`
matches. -/
def findQuestionByID (q : questionnaire) (id : String) : Option question :=
  q.Questions.find? (fun qu => qu.Id == id)

/-- Source `validateSingleAnswer` from `questionnaire.go`. -/
def validateSingleAnswer (q : questionnaire) (questionID : String) (answer : Int) :
    Except QError Unit :=
  match findQuestionByID q questionID with
  | none => .error (.invalidQuestionID questionID answer)
  | some qu =>
    if answer < 1 ∨ answer > (qu.Answers.length : Int) then
      .error (.invalidAnswerRange qu.Id qu.Text answer qu.Answers.length)
    else .ok ()

/-- Source `validateAnswers` from `questionnaire.go`: every entry of the answers
map, first failure wins. -/
def validateAnswers (q : questionnaire) : AnswersMap → Except QError Unit
  | [] => .ok ()
  | (questionID, answer) :: rest =>
    match validateSingleAnswer q questionID answer with
    | .error e => .error e
    | .ok () => validateAnswers q rest

/-- Source `isQuestionAnswered` from `questionnaire.go`. -/
def isQuestionAnswered (qu : question) (answers : AnswersMap) : Bool :=
  (answers.lookup qu.Id).isSome

/-- Source `shouldShowQuestion` from `questionnaire.go`: answered questions are
never shown; a question without condition is shown exactly when no answer
exists yet; otherwise the condition is evaluated and must yield a boolean. -/
def shouldShowQuestion (ev : Evaluator) (qu : question) (answers : AnswersMap) :
    Except QError Bool :=
  if isQuestionAnswered qu answers then .ok false
  else if qu.Condition = "" then
    if answers.length = 0 then .ok true else .ok false
  else
    match ev qu.Condition answers with
    | .compileFailure msg => .error (.compileError msg)
    | .runFailure msg => .error (.runError msg)
    | .nonBoolean => .error (.conditionNotBoolean qu.Condition)
    | .value b => .ok b

/-- Loop of `getNextQuestions` from `questionnaire.go`, in definition
order, aborting on the first evaluation error. -/
def getNextQuestionsLoop (ev : Evaluator) (answers : AnswersMap) :
    List question → Except QError (List Question)
  | [] => .ok []
  | qu :: rest =>
    match shouldShowQuestion ev qu answers with
    | .error e => .error e
    | .ok b =>
      match getNextQuestionsLoop ev answers rest with
      | .error e => .error e
      | .ok tail =>
        .ok (if b then { Id := qu.Id, Text := qu.Text, Answers := qu.Answers } :: tail else tail)

/-- Source `getNextQuestions` from `questionnaire.go`. -/
def getNextQuestions (ev : Evaluator) (q : questionnaire) (answers : AnswersMap) :
    Except QError (List Question) :=
  getNextQuestionsLoop ev answers q.Questions

/-- Source `shouldShowClosingRemark` from `questionnaire.go`: a remark without
condition is always shown. -/
def shouldShowClosingRemark (ev : Evaluator) (remark : closingRemark) (answers : AnswersMap) :
    Except QError Bool :=
  if remark.Condition = "" then .ok true
  else
    match ev remark.Condition answers with
    | .compileFailure msg => .error (.compileError msg)
    | .runFailure msg => .error (.runError msg)
    | .nonBoolean => .error (.conditionNotBoolean remark.Condition)
    | .value b => .ok b

/-- Loop of `getClosingRemarks` from `questionnaire.go`. -/
def getClosingRemarksLoop (ev : Evaluator) (answers : AnswersMap) :
    List closingRemark → Except QError (List ClosingRemark)
  | [] => .ok []
  | remark :: rest =>
    match shouldShowClosingRemark ev remark answers with
    | .error e => .error e
    | .ok b =>
      match getClosingRemarksLoop ev answers rest with
      | .error e => .error e
      | .ok tail => .ok (if b then { Id := remark.Id, Text := remark.Text } :: tail else tail)

/-- Source `getClosingRemarks` from `questionnaire.go`. -/
def getClosingRemarks (ev : Evaluator) (q : questionnaire) (answers : AnswersMap) :
    Except QError (List ClosingRemark) :=
  getClosingRemarksLoop ev answers q.Remarks

/-- Source `calculateProgress` from `questionnaire.go`: `nil` when no question is
available, else `current = len(answers)`, `total = current + available`. -/
def calculateProgress (answers : AnswersMap) (availableQuestions : Nat) : Option Progress :=
  if availableQuestions = 0 then none
  else some { Current := answers.length, Total := answers.length + availableQuestions }

/-- Source `Next` from `questionnaire.go`: validate the answers, compute the next
questions, resolve closing remarks only on completion, attach progress. -/
def Next (ev : Evaluator) (q : questionnaire) (answers : AnswersMap) :
    Except QError Response :=
  match validateAnswers q answers with
  | .error e => .error e
  | .ok () =>
    match getNextQuestions ev q answers with
    | .error e => .error e
    | .ok questions =>
      let completed := questions.length == 0
      match (if completed then getClosingRemarks ev q answers else .ok []) with
      | .error e => .error e
      | .ok remarks =>
        .ok { Questions := questions, ClosingRemarks := remarks,
              Completed := completed,
              Progress := calculateProgress answers questions.length }

/-! ## Dependency validation (spec §4.1, rules 4–6)

The repository's tests (`questionnaire_test.go`) exercise `depends_on`
validation — dependency existence, cycle detection, condition/dependency
consistency — and `errors.go` declares the corresponding error
constructors, but the implementing code is not among the source files.
The definitions below are modelled from the spec. -/

/-- Modelled from the spec: the adjacency of the declared dependency
graph — the `depends_on` list of the question with the given identifier
(`[]` for an unknown identifier). -/
def adjOf (qs : List question) (id : String) : List String :=
  match qs.find? (fun qu => qu.Id == id) with
  | some qu => qu.DependsOn
  | none => []

/-- Modelled from the spec: rule 4 inner loop — every declared dependency
of `qu` names an existing question. -/
def validateDependsList (qs : List question) (qu : question) :
    List String → Except QError Unit
  | [] => .ok ()
  | dep :: rest =>
    if (qs.map question.Id).contains dep then validateDependsList qs qu rest
    else .error (.invalidDependency qu.Id dep)

/-- Modelled from the spec: rule 4 — every declared dependency identifier
names an existing question, questions scanned in definition order. -/
def validateDependenciesExist (qs : List question) : List question → Except QError Unit
  | [] => .ok ()
  | qu :: rest =>
    match validateDependsList qs qu qu.DependsOn with
    | .error e => .error e
    | .ok () => validateDependenciesExist qs rest

/-- Modelled from the spec: the reported cycle path — the current path from
the point the traversal reentered `u`, closed by repeating `u`. -/
def cyclePath (u : String) (path : List String) : List String :=
  path.dropWhile (fun x => x ≠ u) ++ [u]

/-- A pending step of the depth-first traversal: visit one node, or work
through a list of successors.  Defunctionalised so the traversal is a
single structural recursion on its fuel. -/
inductive DfsTask where
  | visit (u : String) (path : List String)
  | children (cs : List String) (path : List String)

/-- Modelled from the spec: rule 5's depth-first traversal with the two
markers — `path` is the "in current path" chain, `done` the "fully
processed" set.  A node already in `path` yields the cycle; a node already
`done` is skipped.  On success the node joins `done`.  The fuel only bounds
the recursion; `detectCycles` supplies more than the traversal can use. -/
def dfsRun (qs : List question) : Nat → DfsTask → List String → Except (List String) (List String)
  | 0, _, _ => .error []
  | fuel + 1, .visit u path, done =>
    if path.contains u then .error (cyclePath u path)
    else if done.contains u then .ok done
    else if (qs.map question.Id).contains u then
      match dfsRun qs fuel (.children (adjOf qs u) (path ++ [u])) done with
      | .error c => .error c
      | .ok done' => .ok (u :: done')
    else .ok done
  | _ + 1, .children [] _, done => .ok done
  | fuel + 1, .children (c :: cs) path, done =>
    match dfsRun qs fuel (.visit c path) done with
    | .error cy => .error cy
    | .ok done' => dfsRun qs fuel (.children cs path) done'

/-- Fuel that the dependency traversal cannot exhaust: generously more
than the number of traversal steps over the whole graph. -/
def dfsFuel (qs : List question) : Nat :=
  (qs.length + 2) * ((qs.map (fun qu => qu.DependsOn.length)).sum + qs.length + 2)

/-- Modelled from the spec: rule 5 outer loop — depth-first traversal from
each question in definition order, sharing the `done` marking. -/
def detectCyclesLoop (qs : List question) : List question → List String →
    Except (List String) Unit
  | [], _ => .ok ()
  | qu :: rest, done =>
    match dfsRun qs (dfsFuel qs) (.visit qu.Id []) done with
    | .error c => .error c
    | .ok done' => detectCyclesLoop qs rest done'

/-- Modelled from the spec: rule 5 — the declared dependency graph is
acyclic; the first cycle found (processing questions in definition order)
is reported. -/
def detectCycles (qs : List question) : Except (List String) Unit :=
  detectCyclesLoop qs qs []

/-- Modelled from the spec: the question identifiers textually referenced
by a condition as answer lookups (`answers["id"]` or `answers['id']`),
scanned left to right.  Structural on a fuel that starts as the text
length, which one character per step cannot exhaust. -/
def scanRefs : Nat → List Char → List String
  | 0, _ => []
  | _ + 1, [] => []
  | fuel + 1, 'a' :: 'n' :: 's' :: 'w' :: 'e' :: 'r' :: 's' :: '[' :: c :: rest =>
    if c = Char.ofNat 34 ∨ c = Char.ofNat 39 then
      (rest.takeWhile (fun x => x ≠ c)).asString ::
        scanRefs fuel (rest.dropWhile (fun x => x ≠ c))
    else
      scanRefs fuel ('n' :: 's' :: 'w' :: 'e' :: 'r' :: 's' :: '[' :: c :: rest)
  | fuel + 1, _ :: rest => scanRefs fuel rest

/-- Modelled from the spec: all identifiers referenced by a condition. -/
def extractReferencedIDs (condition : String) : List String :=
  scanRefs condition.data.length condition.data

/-- Modelled from the spec: set equality of identifier lists (rule 6
compares the declared and referenced identifiers "as sets"). -/
def eqAsSets (a b : List String) : Bool :=
  a.all (fun x => b.contains x) && b.all (fun x => a.contains x)

/-- Modelled from the spec: rule 6 — for every question with a condition,
the referenced identifiers must equal the declared dependencies as sets;
questions scanned in definition order, first mismatch wins. -/
def validateConditionDependencies : List question → Except QError Unit
  | [] => .ok ()
  | qu :: rest =>
    if qu.Condition = "" then validateConditionDependencies rest
    else
      let referenced := extractReferencedIDs qu.Condition
      if eqAsSets referenced qu.DependsOn then validateConditionDependencies rest
      else .error (.conditionDependencyMismatch qu.Id qu.DependsOn referenced)

/-- Modelled from the spec: the full construction-time validation — the
structural checks of `validateQuestionnaireIntegrity` (rules 1–3, from the
source), then dependency existence, cycle detection and
condition/dependency consistency (rules 4–6, in the spec's order). -/
def NewSpec (q : questionnaire) : Except QError questionnaire :=
  match validateQuestionnaireIntegrity q.Questions with
  | .error e => .error e
  | .ok () =>
    match validateDependenciesExist q.Questions q.Questions with
    | .error e => .error e
    | .ok () =>
      match detectCycles q.Questions with
      | .error c => .error (.circularDependency c)
      | .ok () =>
        match validateConditionDependencies q.Questions with
        | .error e => .error e
        | .ok () => .ok q

/-! ## Shared lemmas: inverting `Next` and characterising the loops -/

/-- Inversion of a successful `Next`: the stages it went through and the
shape of the response it assembled. -/
theorem next_ok_inv {ev : Evaluator} {q : questionnaire} {answers : AnswersMap} {r : Response}
    (h : Next ev q answers = .ok r) :
    ∃ questions remarks,
      validateAnswers q answers = .ok () ∧
      getNextQuestions ev q answers = .ok questions ∧
      (if questions.length == 0 then getClosingRemarks ev q answers
       else .ok []) = .ok remarks ∧
      r = { Questions := questions, ClosingRemarks := remarks,
            Completed := questions.length == 0,
            Progress := calculateProgress answers questions.length } := by
  unfold Next at h
  cases hv : validateAnswers q answers with
  | error e => rw [hv] at h; exact absurd h (by simp)
  | ok u =>
    cases u
    rw [hv] at h
    cases hn : getNextQuestions ev q answers with
    | error e => rw [hn] at h; exact absurd h (by simp)
    | ok questions =>
      rw [hn] at h
      simp only at h
      cases hr : (if questions.length == 0 then getClosingRemarks ev q answers
                  else (.ok [] : Except QError (List ClosingRemark))) with
      | error e => rw [hr] at h; exact absurd h (by simp)
      | ok remarks =>
        rw [hr] at h
        simp only [Except.ok.injEq] at h
        exact ⟨questions, remarks, rfl, rfl, hr, h.symm⟩

/-- A failing answer validation fails the whole `Next` call. -/
theorem next_error_of_validate {ev : Evaluator} {q : questionnaire} {answers : AnswersMap}
    {e : QError} (h : validateAnswers q answers = .error e) :
    Next ev q answers = .error e := by
  unfold Next
  rw [h]

/-- A failing question-eligibility pass fails the whole `Next` call. -/
theorem next_error_of_getNext {ev : Evaluator} {q : questionnaire} {answers : AnswersMap}
    {e : QError} (hv : validateAnswers q answers = .ok ())
    (h : getNextQuestions ev q answers = .error e) :
    Next ev q answers = .error e := by
  unfold Next
  rw [hv, h]

/-- What a successful `shouldShowQuestion` means: shown exactly when
unanswered and either an entry question at the very start, or a condition
that evaluated to `true`. -/
theorem shouldShowQuestion_ok_iff {ev : Evaluator} {qu : question} {answers : AnswersMap}
    {b : Bool} (h : shouldShowQuestion ev qu answers = .ok b) :
    (b = true ↔
      (answers.lookup qu.Id = none ∧
        ((qu.Condition = "" ∧ answers = []) ∨
         (qu.Condition ≠ "" ∧ ev qu.Condition answers = .value true)))) := by
  unfold shouldShowQuestion at h
  by_cases ha : isQuestionAnswered qu answers
  · rw [if_pos ha] at h
    have hb : false = b := by injection h
    subst hb
    simp only [Bool.false_eq_true, false_iff]
    rintro ⟨hcontra, -⟩
    rw [isQuestionAnswered, hcontra] at ha
    exact absurd ha (by simp)
  · rw [if_neg ha] at h
    have hnone : answers.lookup qu.Id = none := by
      cases hl : answers.lookup qu.Id with
      | none => rfl
      | some v => exact absurd (by rw [isQuestionAnswered, hl]; rfl) ha
    by_cases hc : qu.Condition = ""
    · rw [if_pos hc] at h
      by_cases hlen : answers.length = 0
      · rw [if_pos hlen] at h
        have hb : true = b := by injection h
        subst hb
        simp only [true_iff]
        exact ⟨hnone, Or.inl ⟨hc, List.length_eq_zero.mp hlen⟩⟩
      · rw [if_neg hlen] at h
        have hb : false = b := by injection h
        subst hb
        simp only [Bool.false_eq_true, false_iff]
        rintro ⟨-, (⟨-, hnil⟩ | ⟨hcne, -⟩)⟩
        · exact hlen (by simp [hnil])
        · exact hcne hc
    · rw [if_neg hc] at h
      cases hev : ev qu.Condition answers with
      | value bv =>
        rw [hev] at h
        have hb : bv = b := by injection h
        subst hb
        constructor
        · intro hb1; exact ⟨hnone, Or.inr ⟨hc, by rw [hb1]⟩⟩
        · rintro ⟨-, (⟨hce, -⟩ | ⟨-, hv2⟩)⟩
          · exact absurd hce hc
          · injection hv2
      | nonBoolean => rw [hev] at h; exact absurd h (by simp)
      | compileFailure m => rw [hev] at h; exact absurd h (by simp)
      | runFailure m => rw [hev] at h; exact absurd h (by simp)

/-- Membership in a successful `getNextQuestionsLoop` result: exactly the
projections of the questions the eligibility check passed. -/
theorem getNextQuestionsLoop_ok_mem {ev : Evaluator} {answers : AnswersMap} :
    ∀ {qs : List question} {l : List Question},
      getNextQuestionsLoop ev answers qs = .ok l →
      ∀ x : Question, x ∈ l ↔ ∃ qu, qu ∈ qs ∧ shouldShowQuestion ev qu answers = .ok true ∧
        x = { Id := qu.Id, Text := qu.Text, Answers := qu.Answers } := by
  intro qs
  induction qs with
  | nil =>
    intro l h x
    simp only [getNextQuestionsLoop, Except.ok.injEq] at h
    subst h
    simp
  | cons qu rest ih =>
    intro l h x
    unfold getNextQuestionsLoop at h
    cases hs : shouldShowQuestion ev qu answers with
    | error e => rw [hs] at h; exact absurd h (by simp)
    | ok b =>
      rw [hs] at h
      cases ht : getNextQuestionsLoop ev answers rest with
      | error e => rw [ht] at h; exact absurd h (by simp)
      | ok tail =>
        rw [ht] at h
        simp only [Except.ok.injEq] at h
        subst h
        cases b with
        | true =>
          rw [if_pos rfl]
          constructor
          · intro hx
            rcases List.mem_cons.mp hx with hx1 | hx2
            · exact ⟨qu, List.mem_cons_self qu rest, hs, hx1⟩
            · obtain ⟨qu', hqu', hshow, hxeq⟩ := (ih ht x).mp hx2
              exact ⟨qu', List.mem_cons_of_mem qu hqu', hshow, hxeq⟩
          · rintro ⟨qu', hqu', hshow, hxeq⟩
            rcases List.mem_cons.mp hqu' with heq | hmem
            · subst heq; exact List.mem_cons.mpr (Or.inl hxeq)
            · exact List.mem_cons.mpr (Or.inr ((ih ht x).mpr ⟨qu', hmem, hshow, hxeq⟩))
        | false =>
          rw [if_neg Bool.false_ne_true]
          constructor
          · intro hx
            obtain ⟨qu', hqu', hshow, hxeq⟩ := (ih ht x).mp hx
            exact ⟨qu', List.mem_cons_of_mem qu hqu', hshow, hxeq⟩
          · rintro ⟨qu', hqu', hshow, hxeq⟩
            rcases List.mem_cons.mp hqu' with heq | hmem
            · subst heq; rw [hs] at hshow; exact absurd hshow (by simp)
            · exact (ih ht x).mpr ⟨qu', hmem, hshow, hxeq⟩

/-- Two questions of a definition with no duplicated identifiers that share
an identifier are the same question. -/
theorem eq_of_mem_of_id_eq {qs : List question} (hnd : (qs.map question.Id).Nodup)
    {a b : question} (ha : a ∈ qs) (hb : b ∈ qs) (hid : a.Id = b.Id) : a = b := by
  induction qs with
  | nil => cases ha
  | cons p rest ih =>
    simp only [List.map_cons, List.nodup_cons] at hnd
    rcases List.mem_cons.mp ha with haeq | hamem <;>
      rcases List.mem_cons.mp hb with hbeq | hbmem
    · rw [haeq, hbeq]
    · exact absurd (hid ▸ List.mem_map_of_mem question.Id hbmem) (haeq ▸ hnd.1)
    · exact absurd (hid ▸ List.mem_map_of_mem question.Id hamem) (by rw [hbeq]; exact hnd.1)
    · exact ih hnd.2 hamem hbmem

/-- Converse direction of the eligibility characterisation: an unanswered
question that is an entry question at the start, or whose condition
evaluates to `true`, passes `shouldShowQuestion`. -/
theorem shouldShowQuestion_ok_true_of {ev : Evaluator} {qu : question} {answers : AnswersMap}
    (hnone : answers.lookup qu.Id = none)
    (h : (qu.Condition = "" ∧ answers = []) ∨
         (qu.Condition ≠ "" ∧ ev qu.Condition answers = .value true)) :
    shouldShowQuestion ev qu answers = .ok true := by
  have ha : isQuestionAnswered qu answers = false := by
    rw [isQuestionAnswered, hnone]; rfl
  unfold shouldShowQuestion
  rw [ha]
  simp only [Bool.false_eq_true, if_false]
  rcases h with ⟨hc, hnil⟩ | ⟨hc, hev⟩
  · subst hnil
    rw [if_pos hc]
    rfl
  · rw [if_neg hc, hev]

/-- A helper evaluator for concrete witnesses: a fixed table from
condition text to evaluation outcome. -/
def evFromList (table : List (String × EvalResult)) : Evaluator :=
  fun condition _ => (table.lookup condition).getD .nonBoolean

/-! ## C2: which questions a successful `Next` returns -/

/-- Claim C2: for a validated definition (no duplicated identifiers) and any
successful `Next` call, a question's projection is in the result exactly
when the question is unanswered and either has no condition while the
answers map is empty, or has a condition that evaluated to boolean `true`;
in particular a condition-free question is never returned once any answer
exists. -/
theorem next_questions_eligibility
    (ev : Evaluator) (q : questionnaire) (answers : AnswersMap) (r : Response)
    (hnd : (q.Questions.map question.Id).Nodup)
    (h : Next ev q answers = .ok r)
    (qu : question) (hqu : qu ∈ q.Questions) :
    (({ Id := qu.Id, Text := qu.Text, Answers := qu.Answers } : Question) ∈ r.Questions ↔
      (answers.lookup qu.Id = none ∧
        ((qu.Condition = "" ∧ answers = []) ∨
         (qu.Condition ≠ "" ∧ ev qu.Condition answers = .value true)))) ∧
    (qu.Condition = "" → answers ≠ [] →
      ({ Id := qu.Id, Text := qu.Text, Answers := qu.Answers } : Question) ∉ r.Questions) := by
  obtain ⟨questions, remarks, hv, hn, hr, hresp⟩ := next_ok_inv h
  have hmem := getNextQuestionsLoop_ok_mem hn
  have hiff :
      (({ Id := qu.Id, Text := qu.Text, Answers := qu.Answers } : Question) ∈ r.Questions ↔
        (answers.lookup qu.Id = none ∧
          ((qu.Condition = "" ∧ answers = []) ∨
           (qu.Condition ≠ "" ∧ ev qu.Condition answers = .value true)))) := by
    rw [hresp]
    simp only
    constructor
    · intro hx
      obtain ⟨qu', hqu', hshow, hxeq⟩ := (hmem _).mp hx
      have hid : qu.Id = qu'.Id := congrArg Question.Id hxeq
      have hq : qu = qu' := eq_of_mem_of_id_eq hnd hqu hqu' hid
      subst hq
      exact (shouldShowQuestion_ok_iff hshow).mp rfl
    · intro hrhs
      exact (hmem _).mpr
        ⟨qu, hqu, shouldShowQuestion_ok_true_of hrhs.1 hrhs.2, rfl⟩
  refine ⟨hiff, ?_⟩
  intro hc hne hx
  rcases (hiff.mp hx).2 with ⟨-, hnil⟩ | ⟨hcne, -⟩
  · exact hne hnil
  · exact hcne hc

/-- First question of the C2 witness: an unconditional entry question. -/
def quw2a : question :=
  { Id := "q1", Text := "T1", Answers := ["a", "b"], Condition := "", DependsOn := [] }

/-- Second question of the C2 witness: a conditional follow-up. -/
def quw2b : question :=
  { Id := "q2", Text := "T2", Answers := ["c"], Condition := "c2", DependsOn := ["q1"] }

/-- Concrete definition for the C2 witness: an entry question and a
conditional follow-up. -/
def qw2 : questionnaire :=
  { Questions := [quw2a, quw2b], Remarks := [] }

/-- Evaluator for the C2 witness: condition `c2` is true. -/
def evw2 : Evaluator := evFromList [("c2", .value true)]

/-- The C2 witness response: what `Next` returns for `{q1: 1}`. -/
def rw2 : Response :=
  { Questions := [{ Id := "q2", Text := "T2", Answers := ["c"] }],
    ClosingRemarks := [], Completed := false,
    Progress := some { Current := 1, Total := 2 } }

/-- Witness for C2 at a concrete questionnaire: with `{q1: 1}` answered,
the conditional question `q2` is returned and the unanswered entry
question `q1` is not. -/
theorem next_questions_eligibility_witness :
    ({ Id := "q2", Text := "T2", Answers := ["c"] } : Question) ∈ rw2.Questions ∧
    ({ Id := "q1", Text := "T1", Answers := ["a", "b"] } : Question) ∉ rw2.Questions := by
  have h2 := next_questions_eligibility evw2 qw2 [("q1", 1)] rw2 (by decide) rfl
  constructor
  · exact ((h2 quw2b (by decide)).1).mpr ⟨rfl, Or.inr ⟨by decide, rfl⟩⟩
  · exact (h2 quw2a (by decide)).2 rfl (by decide)

/-! ## C4: completion flag and progress -/

/-- Claim C4: on every successful `Next`, the completion flag is set exactly
when no question is returned; progress is absent exactly when no question
is returned; and otherwise `current` is the size of the answers map and
`total` is `current` plus the number of returned questions. -/
theorem next_completed_progress
    (ev : Evaluator) (q : questionnaire) (answers : AnswersMap) (r : Response)
    (h : Next ev q answers = .ok r) :
    (r.Completed = true ↔ r.Questions = []) ∧
    (r.Progress = none ↔ r.Questions.length = 0) ∧
    (∀ p, r.Progress = some p →
      p.Current = answers.length ∧ p.Total = answers.length + r.Questions.length) := by
  obtain ⟨questions, remarks, -, -, -, hresp⟩ := next_ok_inv h
  subst hresp
  refine ⟨?_, ?_, ?_⟩
  · simp [List.length_eq_zero]
  · simp only [calculateProgress]
    by_cases hlen : questions.length = 0
    · rw [if_pos hlen]; simp [hlen]
    · rw [if_neg hlen]; simp [hlen]
  · intro p hp
    simp only [calculateProgress] at hp
    by_cases hlen : questions.length = 0
    · rw [if_pos hlen] at hp; cases hp
    · rw [if_neg hlen] at hp
      have := Option.some.inj hp
      rw [← this]
      exact ⟨rfl, rfl⟩

/-- Concrete definition for the C4 witness. -/
def qw4 : questionnaire :=
  { Questions :=
      [{ Id := "q1", Text := "T", Answers := ["a", "b"], Condition := "", DependsOn := [] }],
    Remarks := [] }

/-- The C4 witness response for no answers: the entry question, progress 0/1. -/
def rw4a : Response :=
  { Questions := [{ Id := "q1", Text := "T", Answers := ["a", "b"] }],
    ClosingRemarks := [], Completed := false,
    Progress := some { Current := 0, Total := 1 } }

/-- The C4 witness response once `q1` is answered: completed, no progress. -/
def rw4b : Response :=
  { Questions := [], ClosingRemarks := [], Completed := true, Progress := none }

/-- Witness for C4: at the start the single entry question is returned
with progress `0/1`; answering it completes the questionnaire with absent
progress. -/
theorem next_completed_progress_witness :
    (rw4a.Completed = true ↔ rw4a.Questions = []) ∧
    (rw4b.Progress = none ↔ rw4b.Questions.length = 0) ∧
    (∀ p, rw4a.Progress = some p → p.Current = 0 ∧ p.Total = 0 + rw4a.Questions.length) := by
  refine ⟨?_, ?_, ?_⟩
  · exact (next_completed_progress (evFromList []) qw4 [] rw4a rfl).1
  · exact (next_completed_progress (evFromList []) qw4 [("q1", 1)] rw4b rfl).2.1
  · exact (next_completed_progress (evFromList []) qw4 [] rw4a rfl).2.2

/-! ## C5: closing-remark resolution -/

/-- A successful `shouldShowClosingRemark` returns exactly "no condition,
or condition evaluated to boolean true". -/
theorem shouldShowClosingRemark_ok {ev : Evaluator} {rm : closingRemark} {answers : AnswersMap}
    {b : Bool} (h : shouldShowClosingRemark ev rm answers = .ok b) :
    b = (rm.Condition == "" || ev rm.Condition answers == EvalResult.value true) := by
  unfold shouldShowClosingRemark at h
  by_cases hc : rm.Condition = ""
  · rw [if_pos hc] at h
    have hb : true = b := by injection h
    subst hb
    simp [hc]
  · rw [if_neg hc] at h
    cases hev : ev rm.Condition answers with
    | value bv =>
      rw [hev] at h
      have hb : bv = b := by injection h
      subst hb
      cases bv <;> simp [hc, hev]
    | nonBoolean => rw [hev] at h; exact absurd h (by simp)
    | compileFailure m => rw [hev] at h; exact absurd h (by simp)
    | runFailure m => rw [hev] at h; exact absurd h (by simp)

/-- A successful closing-remark pass returns, in definition order, the
projections of exactly the remarks whose condition is absent or true. -/
theorem getClosingRemarksLoop_ok_eq {ev : Evaluator} {answers : AnswersMap} :
    ∀ {rs : List closingRemark} {l : List ClosingRemark},
      getClosingRemarksLoop ev answers rs = .ok l →
      l = (rs.filter
            (fun rm => rm.Condition == "" || ev rm.Condition answers == EvalResult.value true)).map
          (fun rm => { Id := rm.Id, Text := rm.Text }) := by
  intro rs
  induction rs with
  | nil =>
    intro l h
    simp only [getClosingRemarksLoop, Except.ok.injEq] at h
    simp [← h]
  | cons rm rest ih =>
    intro l h
    unfold getClosingRemarksLoop at h
    cases hs : shouldShowClosingRemark ev rm answers with
    | error e => rw [hs] at h; exact absurd h (by simp)
    | ok b =>
      rw [hs] at h
      cases ht : getClosingRemarksLoop ev answers rest with
      | error e => rw [ht] at h; exact absurd h (by simp)
      | ok tail =>
        rw [ht] at h
        simp only [Except.ok.injEq] at h
        subst h
        have hb := shouldShowClosingRemark_ok hs
        rw [List.filter_cons, ← hb]
        cases b with
        | true => simp [ih ht]
        | false => simp [ih ht]

/-- Claim C5: remarks are resolved only on completion — a non-completed response
carries none; a completed response carries exactly the remarks, in
definition order, without condition or with a condition evaluating to
`true`, projected to identifier and text; and when the eligibility pass
reports completion, a failing remark evaluation fails the whole `Next`
call. -/
theorem next_closing_remarks
    (ev : Evaluator) (q : questionnaire) (answers : AnswersMap) :
    (∀ r, Next ev q answers = .ok r →
      (r.Completed = false → r.ClosingRemarks = []) ∧
      (r.Completed = true →
        r.ClosingRemarks =
          (q.Remarks.filter
            (fun rm => rm.Condition == "" || ev rm.Condition answers == EvalResult.value true)).map
            (fun rm => { Id := rm.Id, Text := rm.Text }))) ∧
    (∀ e, validateAnswers q answers = .ok () →
      getNextQuestions ev q answers = .ok [] →
      getClosingRemarks ev q answers = .error e →
      Next ev q answers = .error e) := by
  constructor
  · intro r h
    obtain ⟨questions, remarks, -, -, hr, hresp⟩ := next_ok_inv h
    subst hresp
    constructor
    · intro hcomp
      simp only at hcomp ⊢
      rw [hcomp] at hr
      simp only [Bool.false_eq_true, if_false, Except.ok.injEq] at hr
      exact hr.symm ▸ rfl
    · intro hcomp
      simp only at hcomp ⊢
      rw [hcomp] at hr
      simp only [if_true] at hr
      exact getClosingRemarksLoop_ok_eq hr
  · intro e hv hn hrem
    unfold Next
    rw [hv, hn]
    simp only [hrem]
    rfl

/-- Concrete definition for the C5 witness: one question, three remarks —
unconditional, true-conditioned, false-conditioned. -/
def qw5 : questionnaire :=
  { Questions :=
      [{ Id := "q1", Text := "T", Answers := ["a", "b"], Condition := "", DependsOn := [] }],
    Remarks :=
      [ { Id := "general", Text := "Thanks!", Condition := "" },
        { Id := "lover", Text := "Great!", Condition := "cyes" },
        { Id := "other", Text := "Okay.", Condition := "cno" } ] }

/-- Evaluator for the C5 witness. -/
def evw5 : Evaluator := evFromList [("cyes", .value true), ("cno", .value false)]

/-- The C5 witness response: completion with the two applicable remarks. -/
def rw5 : Response :=
  { Questions := [],
    ClosingRemarks := [{ Id := "general", Text := "Thanks!" }, { Id := "lover", Text := "Great!" }],
    Completed := true, Progress := none }

/-- The C5 witness response before completion: no remarks yet. -/
def rw5b : Response :=
  { Questions := [{ Id := "q1", Text := "T", Answers := ["a", "b"] }],
    ClosingRemarks := [], Completed := false,
    Progress := some { Current := 0, Total := 1 } }

/-- Witness for C5: on completion the unconditional and true-conditioned
remarks are returned in definition order; before completion none are. -/
theorem next_closing_remarks_witness :
    (rw5.Completed = true →
      rw5.ClosingRemarks =
        (qw5.Remarks.filter
          (fun rm => rm.Condition == "" ||
            evw5 rm.Condition [("q1", 2)] == EvalResult.value true)).map
          (fun rm => { Id := rm.Id, Text := rm.Text })) ∧
    (rw5b.Completed = false → rw5b.ClosingRemarks = []) := by
  constructor
  · exact ((next_closing_remarks evw5 qw5 [("q1", 2)]).1 rw5 rfl).2
  · exact ((next_closing_remarks evw5 qw5 []).1 rw5b rfl).1

/-! ## C3: answer validation -/

/-- Claim C3: for a defined question, an answer below `1` or above the option
count fails the call with `invalidAnswerRange` (carrying the question's
identifier, text, the supplied value and the option count), and any value
in range passes the validation step; an unknown identifier fails with
`invalidQuestionID` carrying the supplied value; the first violation found
aborts the whole `Next` call with that error and no response. -/
theorem answer_validation
    (q : questionnaire) (ev : Evaluator) (questionID : String) (v : Int) (rest : AnswersMap) :
    (∀ qu, findQuestionByID q questionID = some qu →
      ((v < 1 ∨ v > (qu.Answers.length : Int)) →
        validateSingleAnswer q questionID v =
          .error (.invalidAnswerRange qu.Id qu.Text v qu.Answers.length) ∧
        Next ev q [(questionID, v)] =
          .error (.invalidAnswerRange qu.Id qu.Text v qu.Answers.length)) ∧
      (1 ≤ v → v ≤ (qu.Answers.length : Int) →
        validateSingleAnswer q questionID v = .ok ())) ∧
    (findQuestionByID q questionID = none →
      validateSingleAnswer q questionID v = .error (.invalidQuestionID questionID v) ∧
      Next ev q [(questionID, v)] = .error (.invalidQuestionID questionID v)) ∧
    (∀ e, validateSingleAnswer q questionID v = .error e →
      Next ev q ((questionID, v) :: rest) = .error e) := by
  have hprop : ∀ (tail : AnswersMap) (e : QError),
      validateSingleAnswer q questionID v = .error e →
      Next ev q ((questionID, v) :: tail) = .error e := by
    intro tail e hsingle
    apply next_error_of_validate
    unfold validateAnswers
    rw [hsingle]
  refine ⟨?_, ?_, hprop rest⟩
  · intro qu hfind
    constructor
    · intro hout
      have hsingle : validateSingleAnswer q questionID v =
          .error (.invalidAnswerRange qu.Id qu.Text v qu.Answers.length) := by
        unfold validateSingleAnswer
        rw [hfind]
        dsimp only
        rw [if_pos hout]
      exact ⟨hsingle, hprop [] _ hsingle⟩
    · intro h1 h2
      unfold validateSingleAnswer
      rw [hfind]
      dsimp only
      rw [if_neg (by omega)]
  · intro hfind
    have hsingle : validateSingleAnswer q questionID v =
        .error (.invalidQuestionID questionID v) := by
      unfold validateSingleAnswer
      rw [hfind]
    exact ⟨hsingle, hprop [] _ hsingle⟩

/-- Concrete definition for the C3 witness: one question with three
options. -/
def qw3 : questionnaire :=
  { Questions :=
      [{ Id := "satisfaction", Text := "How satisfied are you?",
         Answers := ["Very", "Somewhat", "Not"], Condition := "", DependsOn := [] }],
    Remarks := [] }

/-- Witness for C3 on a three-option question: value `5` fails the `Next`
call with `invalidAnswerRange`, value `0` as well, value `2` passes
validation, and an unknown identifier fails with `invalidQuestionID`. -/
theorem answer_validation_witness :
    Next (evFromList []) qw3 [("satisfaction", 5)] =
      .error (.invalidAnswerRange "satisfaction" "How satisfied are you?" 5 3) ∧
    Next (evFromList []) qw3 [("satisfaction", 0)] =
      .error (.invalidAnswerRange "satisfaction" "How satisfied are you?" 0 3) ∧
    validateSingleAnswer qw3 "satisfaction" 2 = .ok () ∧
    Next (evFromList []) qw3 [("missing", 1)] = .error (.invalidQuestionID "missing" 1) := by
  refine ⟨?_, ?_, ?_, ?_⟩
  · exact (((answer_validation qw3 (evFromList []) "satisfaction" 5 []).1 _ rfl).1
      (by decide)).2
  · exact (((answer_validation qw3 (evFromList []) "satisfaction" 0 []).1 _ rfl).1
      (by decide)).2
  · exact ((answer_validation qw3 (evFromList []) "satisfaction" 2 []).1 _ rfl).2
      (by decide) (by decide)
  · exact ((answer_validation qw3 (evFromList []) "missing" 1 []).2.1 rfl).2

/-! ## C7: order of the integrity checks -/

/-- Scanning past a block of questions that pass all three per-question
checks leaves the validator at the rest of the list, with their
identifiers marked as seen. -/
theorem validateIntegrityLoop_append (pre : List question) :
    ∀ (seen : List String) (rest : List question),
      (∀ p ∈ pre, p.Id ≠ "" ∧ p.Answers ≠ []) →
      ((pre.map question.Id).Nodup) →
      (∀ p ∈ pre, ¬ seen.contains p.Id) →
      validateIntegrityLoop seen (pre ++ rest) =
        validateIntegrityLoop (pre.reverse.map question.Id ++ seen) rest := by
  induction pre with
  | nil => intro seen rest _ _ _; rfl
  | cons p pre' ih =>
    intro seen rest hok hnd hseen
    have hp := hok p (List.mem_cons_self p pre')
    have hpseen := hseen p (List.mem_cons_self p pre')
    simp only [List.map_cons, List.nodup_cons] at hnd
    have hstep : validateIntegrityLoop seen ((p :: pre') ++ rest) =
        validateIntegrityLoop (p.Id :: seen) (pre' ++ rest) := by
      show validateIntegrityLoop seen (p :: (pre' ++ rest)) = _
      conv_lhs => rw [validateIntegrityLoop]
      rw [if_neg hp.1, if_neg (by simpa using hpseen), if_neg hp.2]
    have hseen' : ∀ x ∈ pre', ¬ (p.Id :: seen).contains x.Id := by
      intro x hx
      have hxid : x.Id ≠ p.Id := by
        intro hcontra
        exact hnd.1 (hcontra ▸ List.mem_map_of_mem question.Id hx)
      have hxseen := hseen x (List.mem_cons_of_mem p hx)
      simp only [List.contains, List.elem_eq_mem, List.mem_cons, decide_eq_true_eq] at hxseen ⊢
      rintro (hc | hc)
      · exact hxid hc
      · exact hxseen hc
    rw [hstep, ih (p.Id :: seen) rest
      (fun x hx => hok x (List.mem_cons_of_mem p hx)) hnd.2 hseen']
    congr 1
    simp

/-- Counterexample to C7 as stated: in a definition where the first
question has a non-empty identifier but an empty answer list and the
second has an empty identifier, construction reports `emptyAnswers` for
the first question, not `emptyQuestionID`. -/
theorem integrity_order_counterexample :
    validateQuestionnaireIntegrity
      [ { Id := "q1", Text := "t", Answers := [], Condition := "", DependsOn := [] },
        { Id := "", Text := "t", Answers := ["a"], Condition := "", DependsOn := [] } ] =
      .error (.emptyAnswers "q1") ∧
    validateQuestionnaireIntegrity
      [ { Id := "q1", Text := "t", Answers := [], Condition := "", DependsOn := [] },
        { Id := "", Text := "t", Answers := ["a"], Condition := "", DependsOn := [] } ] ≠
      .error .emptyQuestionID := by
  exact ⟨rfl, by decide⟩

/-- Claim C7, amended: the validator scans questions one by one in definition
order, applying the empty-identifier, duplicate-identifier and
empty-answers checks to each question before moving to the next; the first
violating question's first violated rule wins.  So a question with an
empty identifier yields `emptyQuestionID` only when every earlier question
passes all three checks, and an earlier question with an empty answer list
yields `emptyAnswers` instead. -/
theorem integrity_first_violation
    (pre : List question) (qu : question) (post : List question)
    (hok : ∀ p ∈ pre, p.Id ≠ "" ∧ p.Answers ≠ [])
    (hnd : (pre.map question.Id).Nodup) :
    (qu.Id = "" →
      validateQuestionnaireIntegrity (pre ++ qu :: post) = .error .emptyQuestionID) ∧
    (qu.Id ≠ "" → qu.Id ∉ pre.map question.Id → qu.Answers = [] →
      validateQuestionnaireIntegrity (pre ++ qu :: post) = .error (.emptyAnswers qu.Id)) := by
  have hskip := validateIntegrityLoop_append pre [] (qu :: post) hok hnd
    (by intro p hp; simp [List.contains])
  rw [validateQuestionnaireIntegrity, hskip]
  constructor
  · intro hid
    conv_lhs => rw [validateIntegrityLoop]
    rw [if_pos hid]
  · intro hid hfresh hans
    have hnotdup : ¬ ((pre.reverse.map question.Id ++ ([] : List String)).contains qu.Id = true) := by
      simp only [List.contains, List.elem_eq_mem, decide_eq_true_eq, List.append_nil,
        List.mem_map, List.mem_reverse]
      rintro ⟨x, hx, hxid⟩
      exact hfresh (hxid ▸ List.mem_map_of_mem question.Id hx)
    conv_lhs => rw [validateIntegrityLoop]
    rw [if_neg hid, if_neg hnotdup, if_pos hans]

/-- Witness for C7 (amended): with a well-formed first question, an
empty-identifier second question yields `emptyQuestionID`; with an
empty-answers second question, `emptyAnswers`. -/
theorem integrity_first_violation_witness :
    validateQuestionnaireIntegrity
      [ { Id := "q0", Text := "t", Answers := ["a"], Condition := "", DependsOn := [] },
        { Id := "", Text := "t", Answers := ["a"], Condition := "", DependsOn := [] } ] =
      .error .emptyQuestionID ∧
    validateQuestionnaireIntegrity
      [ { Id := "q0", Text := "t", Answers := ["a"], Condition := "", DependsOn := [] },
        { Id := "q1", Text := "t", Answers := [], Condition := "", DependsOn := [] } ] =
      .error (.emptyAnswers "q1") := by
  constructor
  · exact (integrity_first_violation
      [{ Id := "q0", Text := "t", Answers := ["a"], Condition := "", DependsOn := [] }]
      { Id := "", Text := "t", Answers := ["a"], Condition := "", DependsOn := [] }
      [] (by decide) (by decide)).1 rfl
  · exact (integrity_first_violation
      [{ Id := "q0", Text := "t", Answers := ["a"], Condition := "", DependsOn := [] }]
      { Id := "q1", Text := "t", Answers := [], Condition := "", DependsOn := [] }
      [] (by decide) (by decide)).2 (by decide) (by decide) rfl

/-! ## C8: construction never evaluates conditions -/

/-- Claim C8: construction succeeds on any definition passing the structural
checks (non-empty, unique identifiers; non-empty answer lists) — no
hypothesis on any condition text is needed, because `New` never compiles
or evaluates conditions; a condition error surfaces only when a `Next`
call evaluates it, failing that call. -/
theorem construction_ignores_conditions (q : questionnaire)
    (hok : ∀ qu ∈ q.Questions, qu.Id ≠ "" ∧ qu.Answers ≠ [])
    (hnd : (q.Questions.map question.Id).Nodup) :
    New q = .ok q ∧
    (∀ (ev : Evaluator) (answers : AnswersMap) (e : QError),
      validateAnswers q answers = .ok () →
      getNextQuestions ev q answers = .error e →
      Next ev q answers = .error e) := by
  constructor
  · have h := validateIntegrityLoop_append q.Questions [] [] hok hnd
      (by intro p hp; simp [List.contains])
    rw [List.append_nil] at h
    have hv : validateQuestionnaireIntegrity q.Questions = .ok () := by
      rw [validateQuestionnaireIntegrity, h]; rfl
    unfold New
    rw [hv]
  · intro ev answers e hval hnext
    exact next_error_of_getNext hval hnext

/-- Concrete definition for the C8 witness: a structurally valid question
whose condition text is not a valid expression. -/
def qw8 : questionnaire :=
  { Questions :=
      [{ Id := "q1", Text := "t", Answers := ["a", "b"], Condition := "1 : 2", DependsOn := [] }],
    Remarks := [] }

/-- Evaluator for the C8 witness: the broken condition fails to compile. -/
def evw8 : Evaluator := evFromList [("1 : 2", .compileFailure "unexpected token")]

/-- Witness for C8: construction accepts the broken condition; the first
`Next` call that evaluates it fails with the compile error. -/
theorem construction_ignores_conditions_witness :
    New qw8 = .ok qw8 ∧
    Next evw8 qw8 [] = .error (.compileError "unexpected token") := by
  have h := construction_ignores_conditions qw8 (by decide) (by decide)
  exact ⟨h.1, h.2 evw8 [] (.compileError "unexpected token") rfl rfl⟩

/-! ## C9: answer validation is independent of eligibility -/

/-- Claim C9: an in-range answer for a defined question passes validation even
when the question is not eligible — its condition evaluates to `false`
under the other answers, so it could never have been shown — and the
entry still counts toward `Progress.Current`, which is the size of the
whole answers map. -/
theorem answers_independent_of_eligibility
    (q : questionnaire) (ev : Evaluator) (questionID : String) (v : Int)
    (rest : AnswersMap) (qu : question)
    (hfind : findQuestionByID q questionID = some qu)
    (h1 : 1 ≤ v) (h2 : v ≤ (qu.Answers.length : Int))
    (hcond : qu.Condition ≠ "")
    (hnone : rest.lookup qu.Id = none)
    (hev : ev qu.Condition rest = .value false) :
    validateSingleAnswer q questionID v = .ok () ∧
    shouldShowQuestion ev qu rest = .ok false ∧
    (validateAnswers q rest = .ok () →
      validateAnswers q ((questionID, v) :: rest) = .ok ()) ∧
    (∀ r p, Next ev q ((questionID, v) :: rest) = .ok r → r.Progress = some p →
      p.Current = ((questionID, v) :: rest).length) := by
  have hsingle : validateSingleAnswer q questionID v = .ok () := by
    unfold validateSingleAnswer
    rw [hfind]
    dsimp only
    rw [if_neg (by omega)]
  refine ⟨hsingle, ?_, ?_, ?_⟩
  · have ha : isQuestionAnswered qu rest = false := by
      rw [isQuestionAnswered, hnone]; rfl
    unfold shouldShowQuestion
    rw [ha]
    simp only [Bool.false_eq_true, if_false]
    rw [if_neg hcond, hev]
  · intro hrest
    unfold validateAnswers
    rw [hsingle]
    exact hrest
  · intro r p h hp
    obtain ⟨questions, remarks, -, -, -, hresp⟩ := next_ok_inv h
    subst hresp
    simp only [calculateProgress] at hp
    by_cases hlen : questions.length = 0
    · rw [if_pos hlen] at hp; cases hp
    · rw [if_neg hlen] at hp
      rw [← Option.some.inj hp]

/-- Concrete definition for the C9 witness: an entry question, a question
whose condition is false under the entry answer, and one whose condition
is true. -/
def qw9 : questionnaire :=
  { Questions :=
      [ { Id := "q1", Text := "t1", Answers := ["a"], Condition := "", DependsOn := [] },
        { Id := "q2", Text := "t2", Answers := ["x", "y"], Condition := "c2", DependsOn := ["q1"] },
        { Id := "q3", Text := "t3", Answers := ["z"], Condition := "c3", DependsOn := ["q1"] } ],
    Remarks := [] }

/-- Evaluator for the C9 witness: `q2`'s condition is false, `q3`'s true. -/
def evw9 : Evaluator := evFromList [("c2", .value false), ("c3", .value true)]

/-- The C9 witness question `q2`. -/
def quw9 : question :=
  { Id := "q2", Text := "t2", Answers := ["x", "y"], Condition := "c2", DependsOn := ["q1"] }

/-- The C9 witness response: `q3` eligible, two answers counted. -/
def rw9 : Response :=
  { Questions := [{ Id := "q3", Text := "t3", Answers := ["z"] }],
    ClosingRemarks := [], Completed := false,
    Progress := some { Current := 2, Total := 3 } }

/-- Witness for C9: the never-shown `q2` (condition false under
`{q1: 1}`) still accepts answer `2`, and both answers count toward
`Progress.Current`. -/
theorem answers_independent_of_eligibility_witness :
    validateSingleAnswer qw9 "q2" 2 = .ok () ∧
    shouldShowQuestion evw9 quw9 [("q1", 1)] = .ok false ∧
    validateAnswers qw9 [("q2", 2), ("q1", 1)] = .ok () ∧
    (2 : Nat) = ([("q2", (2 : Int)), ("q1", 1)] : AnswersMap).length := by
  have h := answers_independent_of_eligibility qw9 evw9 "q2" 2 [("q1", 1)] quw9
    rfl (by decide) (by decide) (by decide) rfl rfl
  refine ⟨h.1, h.2.1, h.2.2.1 rfl, ?_⟩
  exact (h.2.2.2 rw9 { Current := 2, Total := 3 } rfl rfl).symm ▸ rfl

/-! ## C1: cycle detection

Specification-side view of the declared dependency graph: a step follows
one declared dependency, reachability is its reflexive-transitive closure,
and a cycle through `x` is a step out of `x` that reaches back to `x`. -/

/-- One edge of the declared dependency graph. -/
def DepStep (qs : List question) (a b : String) : Prop := b ∈ adjOf qs a

/-- Reachability along declared dependencies. -/
def DepReach (qs : List question) : String → String → Prop :=
  Relation.ReflTransGen (DepStep qs)

/-- A dependency cycle passing through `x`. -/
def CycleThrough (qs : List question) (x : String) : Prop :=
  ∃ y, DepStep qs x y ∧ DepReach qs y x

/-- No node reachable from `d` lies on a cycle. -/
def SafeNode (qs : List question) (d : String) : Prop :=
  ∀ x, DepReach qs d x → ¬ CycleThrough qs x

/-- The declared dependency relation contains a cycle (reachable from some
question of the definition). -/
def HasCycle (qs : List question) : Prop :=
  ∃ u ∈ qs.map question.Id, CycleThrough qs u

/-- A node all of whose successors are safe is safe. -/
theorem safeNode_of_successors {qs : List question} {u : String}
    (h : ∀ y, DepStep qs u y → SafeNode qs y) : SafeNode qs u := by
  intro x hx hcyc
  rcases Relation.ReflTransGen.cases_head hx with heq | ⟨v, hstep, hreach⟩
  · subst heq
    obtain ⟨y, hsy, hry⟩ := hcyc
    exact h y hsy u hry ⟨y, hsy, hry⟩
  · exact h v hstep x hreach hcyc

/-- An identifier that is no question's identifier has no declared
dependencies. -/
theorem adjOf_eq_nil_of_not_mem {qs : List question} {u : String}
    (h : u ∉ qs.map question.Id) : adjOf qs u = [] := by
  unfold adjOf
  cases hf : qs.find? (fun qu => qu.Id == u) with
  | none => rfl
  | some qu =>
    have hqu : qu.Id = u := by simpa using List.find?_some hf
    exact absurd (hqu ▸ List.mem_map_of_mem question.Id (List.mem_of_find?_eq_some hf)) h

/-- An identifier that is no question's identifier is safe. -/
theorem safeNode_of_not_mem {qs : List question} {u : String}
    (h : u ∉ qs.map question.Id) : SafeNode qs u := by
  apply safeNode_of_successors
  intro y hy
  rw [DepStep, adjOf_eq_nil_of_not_mem h] at hy
  cases hy

/-- What the traversal guarantees for its pending task once it returns
without a cycle. -/
def dfsPost (qs : List question) (task : DfsTask) (done' : List String) : Prop :=
  match task with
  | .visit u _ => u ∈ done' ∨ u ∉ qs.map question.Id
  | .children cs _ => ∀ c ∈ cs, c ∈ done' ∨ c ∉ qs.map question.Id

/-- Safety invariant of the traversal: starting from a safe `done` set, a
run that reports no cycle returns a larger safe `done` set that covers its
task.  (A run out of fuel reports a cycle, so no fuel bound is needed
here.) -/
theorem dfsRun_ok (qs : List question) :
    ∀ (fuel : Nat) (task : DfsTask) (done done' : List String),
      dfsRun qs fuel task done = .ok done' →
      (∀ d ∈ done, SafeNode qs d) →
      done ⊆ done' ∧ (∀ d ∈ done', SafeNode qs d) ∧ dfsPost qs task done' := by
  intro fuel
  induction fuel with
  | zero =>
    intro task done done' h
    exact absurd h (by simp [dfsRun])
  | succ fuel ih =>
    intro task done done' h hdone
    match task with
    | .visit u path =>
      rw [dfsRun] at h
      by_cases hpath : path.contains u
      · rw [if_pos hpath] at h; exact absurd h (by simp)
      · rw [if_neg hpath] at h
        by_cases hdu : done.contains u
        · rw [if_pos hdu] at h
          have hde : done = done' := by injection h
          subst hde
          refine ⟨List.Subset.refl done, hdone, Or.inl ?_⟩
          simpa [List.contains, List.elem_eq_mem] using hdu
        · rw [if_neg hdu] at h
          by_cases hmem : (qs.map question.Id).contains u
          · rw [if_pos hmem] at h
            cases hrec : dfsRun qs fuel (.children (adjOf qs u) (path ++ [u])) done with
            | error c => rw [hrec] at h; exact absurd h (by simp)
            | ok d₂ =>
              rw [hrec] at h
              have hde : u :: d₂ = done' := by injection h
              subst hde
              obtain ⟨hsub, hsafe, hpost⟩ := ih _ done d₂ hrec hdone
              have hu : SafeNode qs u := by
                apply safeNode_of_successors
                intro y hy
                rcases hpost y hy with hyd | hyn
                · exact hsafe y hyd
                · exact safeNode_of_not_mem hyn
              refine ⟨fun x hx => List.mem_cons_of_mem u (hsub hx), ?_, Or.inl (List.mem_cons_self u d₂)⟩
              intro d hd
              rcases List.mem_cons.mp hd with hdu2 | hdd
              · exact hdu2 ▸ hu
              · exact hsafe d hdd
          · rw [if_neg hmem] at h
            have hde : done = done' := by injection h
            subst hde
            refine ⟨List.Subset.refl done, hdone, Or.inr ?_⟩
            simpa [List.contains, List.elem_eq_mem] using hmem
    | .children [] path =>
      rw [dfsRun] at h
      have hde : done = done' := by injection h
      subst hde
      exact ⟨List.Subset.refl done, hdone, by intro c hc; cases hc⟩
    | .children (c :: cs) path =>
      rw [dfsRun] at h
      cases hrec1 : dfsRun qs fuel (.visit c path) done with
      | error cy => rw [hrec1] at h; exact absurd h (by simp)
      | ok d₁ =>
        rw [hrec1] at h
        obtain ⟨hsub1, hsafe1, hpost1⟩ := ih _ done d₁ hrec1 hdone
        obtain ⟨hsub2, hsafe2, hpost2⟩ := ih _ d₁ done' h hsafe1
        refine ⟨hsub1.trans hsub2, hsafe2, ?_⟩
        intro c' hc'
        rcases List.mem_cons.mp hc' with hceq | hcs
        · subst hceq
          rcases hpost1 with hc1 | hcn
          · exact Or.inl (hsub2 hc1)
          · exact Or.inr hcn
        · exact hpost2 c' hcs

/-- The outer loop of the cycle detection leaves every processed question
identifier safe. -/
theorem detectCyclesLoop_ok (qs : List question) :
    ∀ (rest : List question) (done : List String),
      detectCyclesLoop qs rest done = .ok () →
      (∀ d ∈ done, SafeNode qs d) →
      ∀ qu ∈ rest, SafeNode qs qu.Id := by
  intro rest
  induction rest with
  | nil => intro done _ _ qu hqu; cases hqu
  | cons qu rest' ih =>
    intro done h hdone
    unfold detectCyclesLoop at h
    cases hrec : dfsRun qs (dfsFuel qs) (.visit qu.Id []) done with
    | error c => rw [hrec] at h; exact absurd h (by simp)
    | ok d' =>
      rw [hrec] at h
      obtain ⟨-, hsafe, hpost⟩ := dfsRun_ok qs _ _ done d' hrec hdone
      intro x hx
      rcases List.mem_cons.mp hx with hxq | hxr
      · subst hxq
        rcases hpost with hmem | hnot
        · exact hsafe _ hmem
        · exact safeNode_of_not_mem hnot
      · exact ih d' h hsafe x hxr

/-- A cycle-free report from the detector means every question identifier
is safe. -/
theorem detectCycles_ok {qs : List question} (h : detectCycles qs = .ok ()) :
    ∀ u ∈ qs.map question.Id, SafeNode qs u := by
  intro u hu
  obtain ⟨qu, hqu, hid⟩ := List.mem_map.mp hu
  exact hid ▸ detectCyclesLoop_ok qs qs [] h (by intro d hd; cases hd) qu hqu

/-- The C1 counterexample question: a self-dependency cycle together with
an empty answer list. -/
def qcx1 : question :=
  { Id := "q1", Text := "t", Answers := [], Condition := "", DependsOn := ["q1"] }

/-- The C1 counterexample definition. -/
def qcx : questionnaire := { Questions := [qcx1], Remarks := [] }

/-- Counterexample to C1 as stated: a definition containing a dependency
cycle whose construction fails with `emptyAnswers` — an earlier structural
rule fires first — and not with `CircularDependency`. -/
theorem circular_dependency_counterexample :
    HasCycle qcx.Questions ∧
    NewSpec qcx = .error (.emptyAnswers "q1") ∧
    (∀ c, NewSpec qcx ≠ .error (.circularDependency c)) := by
  refine ⟨⟨"q1", by decide, "q1", ?_, .refl⟩, rfl, ?_⟩
  · exact (by decide : ("q1" : String) ∈ adjOf qcx.Questions "q1")
  · intro c hcontra
    rw [show NewSpec qcx = .error (.emptyAnswers "q1") from rfl] at hcontra
    exact QError.noConfusion (Except.error.inj hcontra)

/-- Claim C1, amended: a definition whose declared dependency relation contains
a cycle and which passes the earlier validation rules (structural checks
and dependency existence) fails construction with a `CircularDependency`
error; no questionnaire value is returned. -/
theorem circular_dependency_detected (q : questionnaire)
    (h1 : validateQuestionnaireIntegrity q.Questions = .ok ())
    (h2 : validateDependenciesExist q.Questions q.Questions = .ok ())
    (hc : HasCycle q.Questions) :
    ∃ c, NewSpec q = .error (.circularDependency c) := by
  unfold NewSpec
  rw [h1]
  dsimp only
  rw [h2]
  dsimp only
  cases hdet : detectCycles q.Questions with
  | error c => exact ⟨c, rfl⟩
  | ok u =>
    cases u
    exfalso
    obtain ⟨v, hv, hcyc⟩ := hc
    exact detectCycles_ok hdet v hv v .refl hcyc

/-- First question of the C1 witness: `q1` depends on `q2`. -/
def qwd1 : question :=
  { Id := "q1", Text := "First question", Answers := ["Yes", "No"], Condition := "",
    DependsOn := ["q2"] }

/-- Second question of the C1 witness: `q2` depends on `q1`. -/
def qwd2 : question :=
  { Id := "q2", Text := "Second question", Answers := ["A", "B"], Condition := "",
    DependsOn := ["q1"] }

/-- The C1 witness definition: the spec's concrete scenario D — `q1`
depends on `q2` and `q2` on `q1`. -/
def qwd : questionnaire := { Questions := [qwd1, qwd2], Remarks := [] }

/-- Witness for C1 (amended) at scenario D: construction fails with
`CircularDependency`, and the reported path is exactly `q1 -> q2 -> q1`. -/
theorem circular_dependency_detected_witness :
    (∃ c, NewSpec qwd = .error (.circularDependency c)) ∧
    NewSpec qwd = .error (.circularDependency ["q1", "q2", "q1"]) := by
  refine ⟨circular_dependency_detected qwd rfl rfl ?_, rfl⟩
  refine ⟨"q1", by decide, "q2", ?_, Relation.ReflTransGen.single ?_⟩
  · exact (by decide : ("q2" : String) ∈ adjOf qwd.Questions "q1")
  · exact (by decide : ("q1" : String) ∈ adjOf qwd.Questions "q2")

/-! ## C6: condition/dependency consistency -/

/-- Scanning past questions that pass the condition/dependency rule leaves
the rule-6 validator at the rest of the list. -/
theorem validateConditionDeps_append :
    ∀ (pre rest : List question),
      (∀ p ∈ pre, p.Condition = "" ∨
        eqAsSets (extractReferencedIDs p.Condition) p.DependsOn = true) →
      validateConditionDependencies (pre ++ rest) = validateConditionDependencies rest := by
  intro pre
  induction pre with
  | nil => intro rest _; rfl
  | cons p pre' ih =>
    intro rest hok
    have hp := hok p (List.mem_cons_self p pre')
    have hrest := ih rest (fun x hx => hok x (List.mem_cons_of_mem p hx))
    show validateConditionDependencies (p :: (pre' ++ rest)) = _
    rcases hp with hpc | hpq
    · conv_lhs => rw [validateConditionDependencies]
      rw [if_pos hpc, hrest]
    · conv_lhs => rw [validateConditionDependencies]
      by_cases hpc : p.Condition = ""
      · rw [if_pos hpc, hrest]
      · rw [if_neg hpc]
        dsimp only
        rw [if_pos hpq, hrest]

/-- A definition in which every conditioned question's referenced set
matches its declared set passes the rule-6 validator. -/
theorem validateConditionDeps_ok :
    ∀ (qs : List question),
      (∀ qu ∈ qs, qu.Condition ≠ "" →
        eqAsSets (extractReferencedIDs qu.Condition) qu.DependsOn = true) →
      validateConditionDependencies qs = .ok () := by
  intro qs
  induction qs with
  | nil => intro _; rfl
  | cons qu rest ih =>
    intro hok
    have hrest := ih (fun x hx hc => hok x (List.mem_cons_of_mem qu hx) hc)
    conv_lhs => rw [validateConditionDependencies]
    by_cases hc : qu.Condition = ""
    · rw [if_pos hc, hrest]
    · rw [if_neg hc]
      dsimp only
      rw [if_pos (hok qu (List.mem_cons_self qu rest) hc), hrest]

/-- Claim C6, amended: once the earlier rules (structural checks, dependency
existence, acyclicity) pass, the first question in definition order with a
condition whose textually referenced identifiers differ as a set from its
declared dependencies fails construction with
`conditionDependencyMismatch` carrying the question identifier, the
declared set and the referenced set; and when every conditioned question's
two sets match, construction succeeds. -/
theorem condition_dependency_consistency (q : questionnaire)
    (h1 : validateQuestionnaireIntegrity q.Questions = .ok ())
    (h2 : validateDependenciesExist q.Questions q.Questions = .ok ())
    (h3 : detectCycles q.Questions = .ok ()) :
    (∀ pre qu post, q.Questions = pre ++ qu :: post →
      (∀ p ∈ pre, p.Condition = "" ∨
        eqAsSets (extractReferencedIDs p.Condition) p.DependsOn = true) →
      qu.Condition ≠ "" →
      eqAsSets (extractReferencedIDs qu.Condition) qu.DependsOn = false →
      NewSpec q = .error
        (.conditionDependencyMismatch qu.Id qu.DependsOn (extractReferencedIDs qu.Condition))) ∧
    ((∀ qu ∈ q.Questions, qu.Condition ≠ "" →
        eqAsSets (extractReferencedIDs qu.Condition) qu.DependsOn = true) →
      NewSpec q = .ok q) := by
  have hbase : ∀ z, validateConditionDependencies q.Questions = z →
      NewSpec q = (match z with
        | .error e => .error e
        | .ok () => .ok q) := by
    intro z hz
    unfold NewSpec
    rw [h1]
    dsimp only
    rw [h2]
    dsimp only
    rw [h3]
    dsimp only
    rw [hz]
  constructor
  · intro pre qu post hsplit hpre hcond hmis
    have hval : validateConditionDependencies q.Questions =
        .error (.conditionDependencyMismatch qu.Id qu.DependsOn
          (extractReferencedIDs qu.Condition)) := by
      rw [hsplit, validateConditionDeps_append pre (qu :: post) hpre]
      conv_lhs => rw [validateConditionDependencies]
      rw [if_neg hcond]
      dsimp only
      rw [if_neg (by rw [hmis]; exact Bool.false_ne_true)]
    exact hbase _ hval
  · intro hall
    exact hbase _ (validateConditionDeps_ok q.Questions hall)

/-- First question of the C6 counterexample: part of a dependency cycle. -/
def qcy1 : question :=
  { Id := "q1", Text := "t", Answers := ["a"], Condition := "answers[\"q2\"] == 1",
    DependsOn := ["q2"] }

/-- Second question of the C6 counterexample: its condition references
`q3`, which its declared dependencies do not contain. -/
def qcy2 : question :=
  { Id := "q2", Text := "t", Answers := ["a"], Condition := "answers[\"q3\"] == 1",
    DependsOn := ["q1"] }

/-- The C6 counterexample definition: a cycle and a mismatch at once. -/
def qcy : questionnaire := { Questions := [qcy1, qcy2], Remarks := [] }

/-- Counterexample to C6 as stated: a definition containing a question
whose referenced set differs from its declared set, yet construction fails
with `CircularDependency` — the cycle rule fires first — and not with
`ConditionDependencyMismatch`. -/
theorem condition_dependency_mismatch_counterexample :
    (∃ qu ∈ qcy.Questions, qu.Condition ≠ "" ∧
      eqAsSets (extractReferencedIDs qu.Condition) qu.DependsOn = false) ∧
    NewSpec qcy = .error (.circularDependency ["q1", "q2", "q1"]) ∧
    (∀ id decl refd, NewSpec qcy ≠ .error (.conditionDependencyMismatch id decl refd)) := by
  refine ⟨⟨qcy2, by decide, by decide, by decide⟩, rfl, ?_⟩
  intro id decl refd hcontra
  rw [show NewSpec qcy = .error (.circularDependency ["q1", "q2", "q1"]) from rfl] at hcontra
  exact QError.noConfusion (Except.error.inj hcontra)

/-- First question of the C6 witness: an unconditioned entry question. -/
def qm1 : question :=
  { Id := "q1", Text := "t", Answers := ["a", "b"], Condition := "", DependsOn := [] }

/-- Second question of the C6 witness: references `q1` and `q3` but only
declares `q1`. -/
def qm2 : question :=
  { Id := "q2", Text := "t", Answers := ["x", "y"],
    Condition := "answers[\"q1\"] == 1 && answers[\"q3\"] == 1", DependsOn := ["q1"] }

/-- The C6 witness definition with the mismatch. -/
def qm : questionnaire := { Questions := [qm1, qm2], Remarks := [] }

/-- Variant of `qm2` whose declared and referenced sets agree. -/
def qm2ok : question :=
  { Id := "q2", Text := "t", Answers := ["x", "y"],
    Condition := "answers[\"q1\"] == 1", DependsOn := ["q1"] }

/-- The C6 witness definition without the mismatch. -/
def qmok : questionnaire := { Questions := [qm1, qm2ok], Remarks := [] }

/-- Witness for C6 (amended): the mismatching `q2` fails construction with
`conditionDependencyMismatch` carrying declared `[q1]` and referenced
`[q1, q3]`; with matching sets construction succeeds. -/
theorem condition_dependency_consistency_witness :
    NewSpec qm = .error (.conditionDependencyMismatch "q2" ["q1"] ["q1", "q3"]) ∧
    NewSpec qmok = .ok qmok := by
  constructor
  · have h := (condition_dependency_consistency qm rfl rfl rfl).1
      [qm1] qm2 [] rfl (by intro p hp; left; simp at hp; rw [hp]; rfl) (by decide) (by decide)
    exact h
  · exact (condition_dependency_consistency qmok rfl rfl rfl).2 (by decide)

/-! ## C10: `Next` neither mutates its inputs nor leaks internal fields

The Go methods receive the questionnaire by pointer and the answers map by
reference, so mutation is expressible; the translation below threads both
through every loop iteration, exactly mirroring which values each source
statement reads and writes, and the frame theorem shows the final state
equals the initial one. -/

/-- State-passing translation of the `getNextQuestions` loop: threads the
questionnaire and the answers map through each iteration and accumulates
by appending, as the source loop does. -/
def getNextQuestionsLoopS (ev : Evaluator) :
    List question → questionnaire → AnswersMap → List Question →
    Except QError (List Question × questionnaire × AnswersMap)
  | [], q, answers, acc => .ok (acc, q, answers)
  | qu :: rest, q, answers, acc =>
    match shouldShowQuestion ev qu answers with
    | .error e => .error e
    | .ok b =>
      getNextQuestionsLoopS ev rest q answers
        (if b then acc ++ [{ Id := qu.Id, Text := qu.Text, Answers := qu.Answers }] else acc)

/-- State-passing `getNextQuestions`. -/
def getNextQuestionsS (ev : Evaluator) (q : questionnaire) (answers : AnswersMap) :
    Except QError (List Question × questionnaire × AnswersMap) :=
  getNextQuestionsLoopS ev q.Questions q answers []

/-- State-passing translation of the `getClosingRemarks` loop. -/
def getClosingRemarksLoopS (ev : Evaluator) :
    List closingRemark → questionnaire → AnswersMap → List ClosingRemark →
    Except QError (List ClosingRemark × questionnaire × AnswersMap)
  | [], q, answers, acc => .ok (acc, q, answers)
  | rm :: rest, q, answers, acc =>
    match shouldShowClosingRemark ev rm answers with
    | .error e => .error e
    | .ok b =>
      getClosingRemarksLoopS ev rest q answers
        (if b then acc ++ [{ Id := rm.Id, Text := rm.Text }] else acc)

/-- State-passing `getClosingRemarks`. -/
def getClosingRemarksS (ev : Evaluator) (q : questionnaire) (answers : AnswersMap) :
    Except QError (List ClosingRemark × questionnaire × AnswersMap) :=
  getClosingRemarksLoopS ev q.Remarks q answers []

/-- State-passing `Next`: returns the response together with the final
state of the questionnaire and the answers map. -/
def NextS (ev : Evaluator) (q : questionnaire) (answers : AnswersMap) :
    Except QError (Response × questionnaire × AnswersMap) :=
  match validateAnswers q answers with
  | .error e => .error e
  | .ok () =>
    match getNextQuestionsS ev q answers with
    | .error e => .error e
    | .ok (questions, q1, answers1) =>
      let completed := questions.length == 0
      match (if completed then getClosingRemarksS ev q1 answers1
             else .ok ([], q1, answers1)) with
      | .error e => .error e
      | .ok (remarks, q2, answers2) =>
        .ok ({ Questions := questions, ClosingRemarks := remarks, Completed := completed,
               Progress := calculateProgress answers2 questions.length }, q2, answers2)

/-- The question loop preserves the threaded state and only ever adds
projections of the scanned questions to its accumulator. -/
theorem getNextQuestionsLoopS_ok {ev : Evaluator} :
    ∀ {qs : List question} {q : questionnaire} {answers : AnswersMap}
      {acc : List Question} {res : List Question × questionnaire × AnswersMap},
      getNextQuestionsLoopS ev qs q answers acc = .ok res →
      res.2.1 = q ∧ res.2.2 = answers ∧
      (∀ x ∈ res.1, x ∈ acc ∨
        ∃ qu ∈ qs, x = { Id := qu.Id, Text := qu.Text, Answers := qu.Answers }) := by
  intro qs
  induction qs with
  | nil =>
    intro q answers acc res h
    have hres : (acc, q, answers) = res := by injection h
    subst hres
    exact ⟨rfl, rfl, fun x hx => Or.inl hx⟩
  | cons qu rest ih =>
    intro q answers acc res h
    rw [getNextQuestionsLoopS] at h
    cases hs : shouldShowQuestion ev qu answers with
    | error e => rw [hs] at h; exact absurd h (by simp)
    | ok b =>
      rw [hs] at h
      obtain ⟨h1, h2, h3⟩ := ih h
      refine ⟨h1, h2, ?_⟩
      intro x hx
      rcases h3 x hx with hacc | ⟨qu', hqu', hxeq⟩
      · cases b with
        | true =>
          rw [if_pos rfl] at hacc
          rcases List.mem_append.mp hacc with hl | hr
          · exact Or.inl hl
          · exact Or.inr ⟨qu, List.mem_cons_self qu rest, by simpa using hr⟩
        | false =>
          rw [if_neg Bool.false_ne_true] at hacc
          exact Or.inl hacc
      · exact Or.inr ⟨qu', List.mem_cons_of_mem qu hqu', hxeq⟩

/-- The remark loop preserves the threaded state and only ever adds
projections of the scanned remarks to its accumulator. -/
theorem getClosingRemarksLoopS_ok {ev : Evaluator} :
    ∀ {rs : List closingRemark} {q : questionnaire} {answers : AnswersMap}
      {acc : List ClosingRemark} {res : List ClosingRemark × questionnaire × AnswersMap},
      getClosingRemarksLoopS ev rs q answers acc = .ok res →
      res.2.1 = q ∧ res.2.2 = answers ∧
      (∀ x ∈ res.1, x ∈ acc ∨ ∃ rm ∈ rs, x = { Id := rm.Id, Text := rm.Text }) := by
  intro rs
  induction rs with
  | nil =>
    intro q answers acc res h
    have hres : (acc, q, answers) = res := by injection h
    subst hres
    exact ⟨rfl, rfl, fun x hx => Or.inl hx⟩
  | cons rm rest ih =>
    intro q answers acc res h
    rw [getClosingRemarksLoopS] at h
    cases hs : shouldShowClosingRemark ev rm answers with
    | error e => rw [hs] at h; exact absurd h (by simp)
    | ok b =>
      rw [hs] at h
      obtain ⟨h1, h2, h3⟩ := ih h
      refine ⟨h1, h2, ?_⟩
      intro x hx
      rcases h3 x hx with hacc | ⟨rm', hrm', hxeq⟩
      · cases b with
        | true =>
          rw [if_pos rfl] at hacc
          rcases List.mem_append.mp hacc with hl | hr
          · exact Or.inl hl
          · exact Or.inr ⟨rm, List.mem_cons_self rm rest, by simpa using hr⟩
        | false =>
          rw [if_neg Bool.false_ne_true] at hacc
          exact Or.inl hacc
      · exact Or.inr ⟨rm', List.mem_cons_of_mem rm hrm', hxeq⟩

/-- Claim C10: a successful state-passing `Next` returns the questionnaire and
the answers map unchanged, and its response exposes only fresh projections
(identifier, text, options) of the definition's questions and remarks. -/
theorem next_frame (ev : Evaluator) (q : questionnaire) (answers : AnswersMap)
    (r : Response) (q' : questionnaire) (answers' : AnswersMap)
    (h : NextS ev q answers = .ok (r, q', answers')) :
    q' = q ∧ answers' = answers ∧
    (∀ x ∈ r.Questions,
      ∃ qu ∈ q.Questions, x = { Id := qu.Id, Text := qu.Text, Answers := qu.Answers }) ∧
    (∀ rm ∈ r.ClosingRemarks, ∃ c ∈ q.Remarks, rm = { Id := c.Id, Text := c.Text }) := by
  unfold NextS at h
  cases hv : validateAnswers q answers with
  | error e => rw [hv] at h; exact absurd h (by simp)
  | ok u =>
    cases u
    rw [hv] at h
    cases hn : getNextQuestionsS ev q answers with
    | error e => rw [hn] at h; exact absurd h (by simp)
    | ok res1 =>
      obtain ⟨questions, q1, answers1⟩ := res1
      rw [hn] at h
      obtain ⟨hq1, ha1, hmem1⟩ := getNextQuestionsLoopS_ok hn
      simp only at h hq1 ha1 hmem1
      cases hr : (if questions.length == 0 then getClosingRemarksS ev q1 answers1
                  else (.ok ([], q1, answers1) :
                    Except QError (List ClosingRemark × questionnaire × AnswersMap))) with
      | error e => rw [hr] at h; exact absurd h (by simp)
      | ok res2 =>
        obtain ⟨remarks, q2, answers2⟩ := res2
        rw [hr] at h
        simp only [Except.ok.injEq, Prod.mk.injEq] at h
        obtain ⟨hresp, hq2, ha2⟩ := h
        have hstate : q2 = q1 ∧ answers2 = answers1 ∧
            (∀ x ∈ remarks, ∃ c ∈ q1.Remarks, x = { Id := c.Id, Text := c.Text }) := by
          by_cases hlen : (questions.length == 0) = true
          · rw [if_pos hlen] at hr
            obtain ⟨hq, ha, hm⟩ := getClosingRemarksLoopS_ok hr
            refine ⟨hq, ha, ?_⟩
            intro x hx
            rcases hm x hx with hacc | hgood
            · cases hacc
            · exact hgood
          · rw [if_neg hlen] at hr
            have heq : (([] : List ClosingRemark), q1, answers1) = (remarks, q2, answers2) := by
              injection hr
            refine ⟨?_, ?_, ?_⟩
            · exact (congrArg (fun t => t.2.1) heq).symm
            · exact (congrArg (fun t => t.2.2) heq).symm
            · intro x hx
              have hrem : remarks = [] := (congrArg (fun t => t.1) heq).symm
              rw [hrem] at hx
              cases hx
        obtain ⟨hq2q, ha2a, hremarks⟩ := hstate
        refine ⟨hq2 ▸ (hq2q.trans hq1), ha2 ▸ (ha2a.trans ha1), ?_, ?_⟩
        · intro x hx
          rw [← hresp] at hx
          simp only at hx
          rcases hmem1 x hx with hacc | hgood
          · cases hacc
          · exact hgood
        · intro x hx
          rw [← hresp] at hx
          simp only at hx
          obtain ⟨c, hc, hxeq⟩ := hremarks x hx
          exact ⟨c, hq1 ▸ hc, hxeq⟩

/-- Concrete definition for the C10 witness. -/
def qw10 : questionnaire :=
  { Questions :=
      [{ Id := "q1", Text := "T", Answers := ["a", "b"], Condition := "", DependsOn := [] }],
    Remarks := [{ Id := "general", Text := "Thanks!", Condition := "" }] }

/-- The C10 witness response. -/
def rw10 : Response :=
  { Questions := [], ClosingRemarks := [{ Id := "general", Text := "Thanks!" }],
    Completed := true, Progress := none }

/-- Witness for C10: the state-passing `Next` returns the questionnaire
and answers unchanged, and the returned remark is the projection of a
defined remark. -/
theorem next_frame_witness :
    NextS (evFromList []) qw10 [("q1", 1)] = .ok (rw10, qw10, [("q1", 1)]) ∧
    (∀ rm ∈ rw10.ClosingRemarks, ∃ c ∈ qw10.Remarks, rm = { Id := c.Id, Text := c.Text }) := by
  exact ⟨rfl,
    (next_frame (evFromList []) qw10 [("q1", 1)] rw10 qw10 [("q1", 1)] rfl).2.2.2⟩

end GDQ
